import Mathlib

/-!
Shallow embedding of the dca library (github.com/jogramming/dca): the DCA
frame wire format (`DecodeFrame` in dca.go, `writeOpusFrame` in encode.go),
options validation (`Validate`), the metadata prologue reader
(`ReadMetadata` in decode.go), the ogg-page packet reassembly loop
(`readStdout` in encode.go), the frame queue exposed through `ReadFrame`,
the producer (`run`) event order, and the streaming-delivery state machine
(stream.go).

Bytes are modelled as `Nat` (well-formedness `< 256` carried in
hypotheses); Go machine integers are `Int` with explicit wrapping where
the source casts; the external processes (ffmpeg, ffprobe), the external
JSON codec and the frame sink appear as abstract parameters of the
embedded functions.
-/

namespace DCA

/-! ## Frame wire format (dca.go `DecodeFrame`, encode.go `writeOpusFrame`) -/

/-- The value of two bytes read as a little-endian unsigned 16-bit field. -/
def toUint16LE (b0 b1 : Nat) : Nat := b0 + 256 * b1

/-- The value of two bytes read as a little-endian signed 16-bit field,
as `binary.Read` with an `int16` destination interprets them. -/
def toInt16LE (b0 b1 : Nat) : Int :=
  let v := toUint16LE b0 b1
  if v < 32768 then (v : Int) else (v : Int) - 65536

/-- `writeOpusFrame` (encode.go): the wire frame for one opus packet is
`int16(len(opusFrame))` written little-endian, then the raw payload.
The Go cast `int16(n)` keeps the low 16 bits, here written `% 65536`. -/
def encodeFrame (payload : List Nat) : List Nat :=
  let v := payload.length % 65536
  v % 256 :: v / 256 :: payload

/-- Error values `binary.Read` (via `io.ReadFull`) can surface for a
truncated read: `io.EOF` when no byte at all was available, and
`io.ErrUnexpectedEOF` when some but not all requested bytes were. -/
inductive ReadErr where
  | eof
  | unexpectedEOF
  deriving DecidableEq, Repr

/-- Outcome of `DecodeFrame`: a decoded payload, an error, or a Go runtime
crash (`make([]byte, size)` with a negative `size`). -/
inductive DecodeResult where
  | ok (frame : List Nat)
  | error (e : ReadErr)
  | crashed
  deriving DecidableEq, Repr

/-- `DecodeFrame` (dca.go) on a finite byte stream: read a 2-byte
little-endian signed `size` (`io.EOF` on an empty stream,
`io.ErrUnexpectedEOF` on a 1-byte stream), allocate `make([]byte, size)`
(a runtime crash when `size < 0`), then fill it with `io.ReadFull`
semantics: no error when `size = 0`, `io.EOF` when `size > 0` and no
payload byte is available, `io.ErrUnexpectedEOF` on a partial payload. -/
def DecodeFrame (input : List Nat) : DecodeResult :=
  match input with
  | [] => .error .eof
  | [_] => .error .unexpectedEOF
  | b0 :: b1 :: rest =>
    let size := toInt16LE b0 b1
    if size < 0 then .crashed
    else if size = 0 then .ok []
    else if rest.length = 0 then .error .eof
    else if rest.length < size.toNat then .error .unexpectedEOF
    else .ok (rest.take size.toNat)

/-! ## Options validation (encode.go `EncodeOptions`, `Validate`) -/

/-- `EncodeOptions` (encode.go). Go `int` fields become `Int`. -/
structure EncodeOptions where
  Volume : Int
  Channels : Int
  FrameRate : Int
  FrameDuration : Int
  Bitrate : Int
  PacketLoss : Int
  RawOutput : Bool
  Application : String
  CompressionLevel : Int
  BufferedFrames : Int
  VBR : Bool
  deriving DecidableEq, Repr

/-- The three error messages `Validate` can return. -/
inductive ValidateErr where
  | volumeOutOfBounds      -- "Out of bounds volume (0-512)"
  | invalidFrameDuration   -- "Invalid FrameDuration"
  | invalidPacketLoss      -- "Invalid packet loss percentage"
  deriving DecidableEq, Repr

/-- `Validate` (encode.go): volume must lie in 0..512, frame duration must
be one of 20/40/60, packet loss must lie in 0..100, checked in that
order; `none` models Go's `nil` error. -/
def Validate (opts : EncodeOptions) : Option ValidateErr :=
  if opts.Volume < 0 ∨ opts.Volume > 512 then some .volumeOutOfBounds
  else if opts.FrameDuration ≠ 20 ∧ opts.FrameDuration ≠ 40 ∧ opts.FrameDuration ≠ 60 then
    some .invalidFrameDuration
  else if opts.PacketLoss < 0 ∨ opts.PacketLoss > 100 then some .invalidPacketLoss
  else none

/-- `StdEncodeOptions` (encode.go), the default option set a session
substitutes when constructed with `nil` options. -/
def StdEncodeOptions : EncodeOptions :=
  { Volume := 256, Channels := 2, FrameRate := 48000, FrameDuration := 20,
    Bitrate := 64, PacketLoss := 1, RawOutput := false,
    Application := "audio", CompressionLevel := 10, BufferedFrames := 100,
    VBR := true }

/-! ## Metadata prologue reader (decode.go `ReadMetadata`) -/

/-- The value of four bytes read as a little-endian unsigned 32-bit
field. -/
def toUint32LE (b0 b1 b2 b3 : Nat) : Nat :=
  b0 + 256 * b1 + 65536 * b2 + 16777216 * b3

/-- The value of four bytes read as a little-endian signed 32-bit field,
as `binary.Read` with an `int32` destination interprets them. -/
def toInt32LE (b0 b1 b2 b3 : Nat) : Int :=
  let v := toUint32LE b0 b1 b2 b3
  if v < 2147483648 then (v : Int) else (v : Int) - 4294967296

/-- Outcome of `ReadMetadata` (decode.go): success carries the parsed
format version and the JSON body bytes handed to `json.Unmarshal`; the
error cases are the propagated read errors, `ErrNotDCA`, a
`strconv.ParseInt` failure on the version byte, a `json.Unmarshal`
failure, and the runtime crash of `make([]byte, metaLen)` with a
negative `metaLen`. -/
inductive MetaResult where
  | ok (formatVersion : Int) (jsonBody : List Nat)
  | readFault (e : ReadErr)
  | errNotDCA
  | badVersionDigit
  | badJSON
  | crashed
  deriving DecidableEq, Repr

/-- `ReadMetadata` (decode.go) on a finite byte stream, with the external
`json.Unmarshal` abstracted into the predicate `jsonOk` on the body
bytes. The 4-byte fingerprint is read with a single `Read` into a
zero-initialised buffer (a bytes-reader source returns `min 4 len` bytes
and errors only on an empty stream), so missing fingerprint bytes appear
as zeros. The first 3 bytes must be `"DCA"` (68, 67, 65); the 4th must
parse as a base-10 integer — it is a single byte, so exactly a digit;
then a 4-byte little-endian signed length and that many JSON bytes are
read with `io.ReadFull` semantics. -/
def ReadMetadata (jsonOk : List Nat → Bool) (input : List Nat) : MetaResult :=
  match input with
  | [] => .readFault .eof
  | _ :: _ =>
    if ¬(input.getD 0 0 = 68 ∧ input.getD 1 0 = 67 ∧ input.getD 2 0 = 65) then .errNotDCA
    else if ¬(48 ≤ input.getD 3 0 ∧ input.getD 3 0 ≤ 57) then .badVersionDigit
    else
      let rest := input.drop 4
      if rest.length = 0 then .readFault .eof
      else if rest.length < 4 then .readFault .unexpectedEOF
      else
        let metaLen := toInt32LE (rest.getD 0 0) (rest.getD 1 0) (rest.getD 2 0) (rest.getD 3 0)
        let body := rest.drop 4
        if metaLen < 0 then .crashed
        else if metaLen = 0 then
          (if jsonOk [] then .ok ((input.getD 3 0 : Int) - 48) [] else .badJSON)
        else if body.length = 0 then .readFault .eof
        else if body.length < metaLen.toNat then .readFault .unexpectedEOF
        else if jsonOk (body.take metaLen.toNat) then
          .ok ((input.getD 3 0 : Int) - 48) (body.take metaLen.toNat)
        else .badJSON

/-! ## Ogg packet reassembly (encode.go `readStdout`) -/

/-- One ogg page as the external `ogg.Decoder` yields it: the segment
table (`SegTbl`, one byte per segment, so every entry is `< 256`) and the
flat page data (`Packet`). The decoder guarantees
`packet.length = segTbl.sum`. -/
structure OggPage where
  segTbl : List Nat
  packet : List Nat
  deriving DecidableEq, Repr

/-- The inner loop of `readStdout` (encode.go) over one page's segment
table: slice `packet[curPos : curPos+seg]` (Go would crash out of range;
under the decoder's guarantee the slice is in range and equals this
clamped `drop`/`take`), append it to the pending packet buffer, and
whenever the table entry is `< 255` and the buffer is non-empty flush
the buffer as one completed packet. Returns the flushed packets in
order, the final position, and the remaining buffer. -/
def segLoop (packet : List Nat) (segTbl : List Nat) (curPos : Nat) (acc : List Nat) :
    List (List Nat) × Nat × List Nat :=
  match segTbl with
  | [] => ([], curPos, acc)
  | seg :: restSegs =>
    let acc1 := acc ++ ((packet.drop curPos).take seg)
    let pos1 := curPos + seg
    if seg < 255 ∧ 0 < acc1.length then
      let r := segLoop packet restSegs pos1 []
      (acc1 :: r.1, r.2)
    else
      segLoop packet restSegs pos1 acc1

/-- The page loop of `readStdout` (encode.go): the pending packet buffer
survives from one page to the next; each page's segments are walked with
`segLoop`. Returns the flushed packets and the final pending buffer. -/
def readStdoutPackets (pages : List OggPage) : List (List Nat) × List Nat :=
  pages.foldl
    (fun st page =>
      let r := segLoop page.packet page.segTbl 0 st.2
      (st.1 ++ r.1, r.2.2))
    ([], [])

/-- `readStdout` (encode.go) end to end: every flushed packet — plus the
final pending buffer, flushed once if non-empty — is wrapped by
`writeOpusFrame` into a wire frame, in order. -/
def readStdoutFrames (pages : List OggPage) : List (List Nat) :=
  let r := readStdoutPackets pages
  (r.1 ++ (if 0 < r.2.length then [r.2] else [])).map encodeFrame

/-- A page's segment table realised as the list of its segment byte
runs: entry `i` of the table names the length of run `i` of the page
data. -/
def splitSegs (packet : List Nat) (segTbl : List Nat) : List (List Nat) :=
  match segTbl with
  | [] => []
  | seg :: restSegs => packet.take seg :: splitSegs (packet.drop seg) restSegs

/-- Modelled from the spec text of C3, literally: walking a page's
segments, concatenating consecutive segments into one packet buffer, and
flushing the accumulated packet whenever a segment shorter than the
maximum segment size (255) is encountered — with no non-emptiness
condition on the flush. Returns flushed packets and the remaining
buffer. -/
def specSegWalk (segs : List (List Nat)) (acc : List Nat) : List (List Nat) × List Nat :=
  match segs with
  | [] => ([], acc)
  | s :: restSegs =>
    let acc1 := acc ++ s
    if s.length < 255 then
      let r := specSegWalk restSegs []
      (acc1 :: r.1, r.2)
    else specSegWalk restSegs acc1

/-- Modelled from the spec text of C3, literally: the packets obtained by
walking each page's segment list in order with `specSegWalk`, plus any
non-empty partial packet remaining at the end, flushed exactly once. -/
def specPackets (pages : List (List (List Nat))) : List (List Nat) :=
  let r := pages.foldl (fun st page =>
    let w := specSegWalk page st.2
    (st.1 ++ w.1, w.2)) ([], [])
  r.1 ++ (if 0 < r.2.length then [r.2] else [])

/-- The amended packet-boundary walk: as `specSegWalk`, but a segment
shorter than 255 only ends a packet when the accumulated buffer is
non-empty (a zero-length segment arriving on an empty buffer emits
nothing) — the rule the source actually implements. -/
def specSegWalkNE (segs : List (List Nat)) (acc : List Nat) : List (List Nat) × List Nat :=
  match segs with
  | [] => ([], acc)
  | s :: restSegs =>
    let acc1 := acc ++ s
    if s.length < 255 ∧ acc1 ≠ [] then
      let r := specSegWalkNE restSegs []
      (acc1 :: r.1, r.2)
    else specSegWalkNE restSegs acc1

/-- The amended claim's packet stream: `specPackets` with the
non-emptiness condition on every flush. -/
def specPacketsNE (pages : List (List (List Nat))) : List (List Nat) :=
  let r := pages.foldl (fun st page =>
    let w := specSegWalkNE page st.2
    (st.1 ++ w.1, w.2)) ([], [])
  r.1 ++ (if 0 < r.2.length then [r.2] else [])

/-! ## The frame queue (encode.go `frameChannel`, `ReadFrame`) -/

/-- The frame channel as the consumer sees it: the buffered frames still
queued, and whether the producer has closed it. -/
structure FrameChan where
  buffered : List (List Nat)
  closed : Bool
  deriving DecidableEq, Repr

/-- What one `ReadFrame` call observes: a frame, the `io.EOF`
end-of-stream signal (`<-e.frameChannel` yielded the zero value because
the channel is closed and drained), or blocking (empty but not yet
closed — the call does not return). -/
inductive ReadOutcome where
  | frame (f : List Nat)
  | eofErr
  | blocked
  deriving DecidableEq, Repr

/-- One `ReadFrame` call (encode.go): receive from the channel; a `nil`
frame — which the receive yields exactly when the channel is closed and
drained — turns into `io.EOF`; otherwise the frame is returned and
removed from the queue. -/
def stepRead (c : FrameChan) : ReadOutcome × FrameChan :=
  match c.buffered with
  | f :: rest => (.frame f, ⟨rest, c.closed⟩)
  | [] => if c.closed then (.eofErr, c) else (.blocked, c)

/-- The channel state after `k` completed `ReadFrame` calls. -/
def chanAfter (c : FrameChan) : Nat → FrameChan
  | 0 => c
  | k + 1 => (stepRead (chanAfter c k)).2

/-- The outcome of the `k`-th `ReadFrame` call (0-indexed). -/
def nthRead (c : FrameChan) (k : Nat) : ReadOutcome :=
  (stepRead (chanAfter c k)).1

/-! ## The producer `run` (encode.go): event order -/

/-- The externally visible events of `run` (encode.go), in program
order: enqueueing the metadata prologue, enqueueing a wire frame,
calling `ffmpeg.Start()` with the argument list, and closing the frame
channel. -/
inductive RunEvent where
  | enqueueMeta
  | enqueueAudio (f : List Nat)
  | startProc (args : List String)
  | closeQueue
  deriving DecidableEq, Repr

/-- The ffmpeg argument list `run` (encode.go) builds from the options
(after the binary name): every numeric option is rendered with
`strconv.Itoa`, VBR as on/off, bitrate scaled to bits per second. -/
def ffmpegArgs (opts : EncodeOptions) (inFile : String) : List String :=
  ["-stats", "-i", inFile, "-map", "0:a", "-acodec", "libopus", "-f", "ogg",
   "-vbr", if opts.VBR then "on" else "off",
   "-compression_level", toString opts.CompressionLevel,
   "-vol", toString opts.Volume,
   "-ar", toString opts.FrameRate,
   "-ac", toString opts.Channels,
   "-b:a", toString (opts.Bitrate * 1000),
   "-application", opts.Application,
   "-frame_duration", toString opts.FrameDuration,
   "-packet_loss", toString opts.PacketLoss,
   "pipe:1"]

/-- The environment of one `run` invocation: how the session was
constructed (`filePath` empty for `EncodeMem`, `pipeSource` true for
`EncodeMem`), and the outcomes of the external steps — pipe creation,
the file-source ffprobe/JSON/bitrate-parse chain of
`writeMetadataFrame`, `ffmpeg.Start()`, and the wire frames the stdout
reader then produces. -/
structure RunEnv where
  filePath : String
  pipeSource : Bool
  stdoutPipeOk : Bool
  stderrPipeOk : Bool
  probeOk : Bool
  startOk : Bool
  audioFrames : List (List Nat)
  deriving DecidableEq, Repr

/-- `writeMetadataFrame` (encode.go) as queue events: for a file source
(`pipeReader == nil`) any failure in the ffprobe/JSON-unmarshal/bitrate
chain returns early WITHOUT enqueueing anything; otherwise — including
every pipe source — the prologue is enqueued. -/
def writeMetadataFrameEvents (isFile probeOk : Bool) : List RunEvent :=
  if isFile ∧ ¬probeOk then [] else [.enqueueMeta]

/-- `run` (encode.go) as an event trace: substitute `StdEncodeOptions`
for `nil` options; choose `pipe:0` or the file path as input; a pipe
failure closes the queue at once; otherwise, when `RawOutput` is false
`writeMetadataFrame` runs BEFORE `ffmpeg.Start()`; the start is then
attempted with the derived arguments, a failed start closes the queue,
and a successful one lets `readStdout` enqueue the audio frames and
close the queue on exit. -/
def runEvents (options : Option EncodeOptions) (env : RunEnv) : List RunEvent :=
  let opts := options.getD StdEncodeOptions
  let inFile := if env.filePath ≠ "" then env.filePath else "pipe:0"
  if ¬env.stdoutPipeOk then [.closeQueue]
  else if ¬env.stderrPipeOk then [.closeQueue]
  else
    (if ¬opts.RawOutput then writeMetadataFrameEvents (¬env.pipeSource) env.probeOk else [])
    ++ RunEvent.startProc ("ffmpeg" :: ffmpegArgs opts inFile)
    :: (if ¬env.startOk then [.closeQueue]
        else env.audioFrames.map RunEvent.enqueueAudio ++ [.closeQueue])

/-- `EncodeFile` (encode.go): a session over the file at `path`
(`pipeReader = nil`), started immediately. -/
def EncodeFileEvents (path : String) (options : Option EncodeOptions)
    (stdoutPipeOk stderrPipeOk probeOk startOk : Bool)
    (audioFrames : List (List Nat)) : List RunEvent :=
  runEvents options
    ⟨path, false, stdoutPipeOk, stderrPipeOk, probeOk, startOk, audioFrames⟩

/-- `EncodeMem` (encode.go): a session fed from a reader
(`filePath = ""`, `pipeReader ≠ nil`), started immediately. -/
def EncodeMemEvents (options : Option EncodeOptions)
    (stdoutPipeOk stderrPipeOk probeOk startOk : Bool)
    (audioFrames : List (List Nat)) : List RunEvent :=
  runEvents options
    ⟨"", true, stdoutPipeOk, stderrPipeOk, probeOk, startOk, audioFrames⟩

/-! ## Streaming delivery (stream.go) -/

/-- The timeout of the sink hand-off race in `readNext` (stream.go):
`time.After(time.Second)`, in nanoseconds. -/
def sinkTimeoutNanos : Nat := 1000000000

/-- The mutable fields of `StreamingSession` (stream.go). `err` is the
terminal error; `none` models Go's `nil`. -/
structure StreamState where
  paused : Bool
  framesSent : Nat
  finished : Bool
  running : Bool
  err : Option Nat
  deriving DecidableEq, Repr

/-- The state of a freshly constructed `NewStream` session: the
forwarding goroutine has been started. -/
def newStreamState : StreamState :=
  ⟨false, 0, false, true, none⟩

/-- What one `source.OpusFrame()` call yields: a frame, `io.EOF`, or
some other source error. -/
inductive SourceResult where
  | frame (f : List Nat)
  | eofEnd
  | srcFault
  deriving DecidableEq, Repr

/-- The errors `readNext` (stream.go) can return, numbered so that
`StreamState.err` can store them: 0 is `io.EOF`, 1 is
`ErrVoiceConnClosed` (the sink hand-off lost the race against the
one-second timer), 2 is any other source error. -/
def ioEOFCode : Nat := 0

/-- `ErrVoiceConnClosed` (stream.go). -/
def voiceConnClosedCode : Nat := 1

/-- Any non-EOF source error surfaced by `source.OpusFrame()`. -/
def srcFaultCode : Nat := 2

/-- `readNext` (stream.go): pull one frame from the source (propagating
its error), then race the sink hand-off against the one-second timer:
losing the race returns `ErrVoiceConnClosed` without touching
`framesSent`; winning increments `framesSent`. `sinkAccepts` is the
outcome of the race. -/
def readNext (st : StreamState) (src : SourceResult) (sinkAccepts : Bool) :
    Option Nat × StreamState :=
  match src with
  | .eofEnd => (some ioEOFCode, st)
  | .srcFault => (some srcFaultCode, st)
  | .frame _ =>
    if ¬sinkAccepts then (some voiceConnClosedCode, st)
    else (none, { st with framesSent := st.framesSent + 1 })

/-- The error arm of `stream` (stream.go): mark the session finished and
record the error unless it is `io.EOF`. -/
def streamHandleErr (st : StreamState) (e : Nat) : StreamState :=
  { st with finished := true, err := if e = ioEOFCode then st.err else some e }

/-- The loop of `stream` (stream.go) fed a finite list of iteration
outcomes (each a source result and a sink-race outcome): at each
iteration boundary a set pause flag exits the loop (the deferred
`running = false` runs); a `readNext` error marks the session finished
via `streamHandleErr` and exits; otherwise the loop continues. If the
outcomes run out the state is observed mid-loop. -/
def streamLoop (st : StreamState) : List (SourceResult × Bool) → StreamState
  | [] => st
  | (src, snk) :: rest =>
    if st.paused then { st with running := false }
    else
      match readNext st src snk with
      | (none, st1) => streamLoop st1 rest
      | (some e, st1) => { streamHandleErr st1 e with running := false }

/-- `SetPaused` (stream.go), translated branch for branch: a finished
session ignores the call; un-pausing a running session only clears a
set pause flag; pausing a stopped session only sets a clear pause flag;
un-pausing a stopped, paused session restarts the forwarding goroutine
(`go s.stream()`, modelled by `running := true`); in every remaining
case only the pause flag is assigned. `framesSent` is never written. -/
def SetPaused (st : StreamState) (paused : Bool) : StreamState :=
  if st.finished then st
  else if paused = false ∧ st.running = true then
    (if st.paused then { st with paused := false } else st)
  else if paused = true ∧ st.running = false then
    (if st.paused = false then { st with paused := true } else st)
  else if st.running = false ∧ st.paused = true ∧ paused = false then
    { st with paused := paused, running := true }
  else
    { st with paused := paused }

/-- `PlaybackPosition` (stream.go): frames forwarded so far times the
source's frame duration (a `time.Duration`, here in nanoseconds). -/
def PlaybackPosition (st : StreamState) (frameDuration : Nat) : Nat :=
  st.framesSent * frameDuration

/-- `Finished` (stream.go): whether the stream finished, and the
terminal error if any. -/
def Finished (st : StreamState) : Bool × Option Nat :=
  (st.finished, st.err)

/-- One externally driven step of a streaming session: either one
iteration of the forwarding loop (when it is running), or a `SetPaused`
call. -/
inductive StreamEvent where
  | next (src : SourceResult) (sinkAccepts : Bool)
  | setPausedCall (b : Bool)
  deriving DecidableEq, Repr

/-- Apply one step: a loop iteration does nothing when the goroutine is
not running, exits the loop when paused, and otherwise behaves as one
`stream` iteration; a `SetPaused` call is `SetPaused`. -/
def applyEvent (st : StreamState) : StreamEvent → StreamState
  | .next src snk =>
    if ¬st.running then st
    else if st.paused then { st with running := false }
    else
      match readNext st src snk with
      | (none, st1) => st1
      | (some e, st1) => { streamHandleErr st1 e with running := false }
  | .setPausedCall b => SetPaused st b

/-- Apply a whole sequence of steps in order. -/
def applyEvents (st : StreamState) (events : List StreamEvent) : StreamState :=
  events.foldl applyEvent st

end DCA

/-! # Theorems -/

namespace DCA

/-! ## C1: frame round-trip and truncation behaviour -/

theorem toInt16LE_nonneg_of_small (b0 b1 : Nat) (hv : toUint16LE b0 b1 < 32768) :
    toInt16LE b0 b1 = (toUint16LE b0 b1 : Int) := by
  unfold toInt16LE
  simp [hv]

theorem encodeFrame_header_size (payload : List Nat) (hlen : payload.length ≤ 32767) :
    toInt16LE (payload.length % 65536 % 256) (payload.length % 65536 / 256) =
      (payload.length : Int) := by
  have hmod : payload.length % 65536 = payload.length := Nat.mod_eq_of_lt (by omega)
  rw [hmod]
  unfold toInt16LE toUint16LE
  have hval : payload.length % 256 + 256 * (payload.length / 256) = payload.length := by omega
  simp only [hval]
  have : payload.length < 32768 := by omega
  simp [this]

theorem encodeFrame_decode (payload : List Nat) (hlen : payload.length ≤ 32767) :
    DecodeFrame (encodeFrame payload) = .ok payload := by
  have hmod : payload.length % 65536 = payload.length :=
    Nat.mod_eq_of_lt (by omega)
  unfold encodeFrame DecodeFrame
  simp only []
  rw [encodeFrame_header_size payload hlen]
  by_cases hz : payload.length = 0
  · simp [hz]
    exact List.eq_nil_of_length_eq_zero hz
  · have hpos : ¬ ((payload.length : Int) < 0) := Int.not_lt.mpr (Int.natCast_nonneg _)
    have hnz : ¬ ((payload.length : Int) = 0) := by exact_mod_cast hz
    simp only [hpos, if_false, hnz]
    have htn : ((payload.length : Int)).toNat = payload.length := Int.toNat_natCast _
    rw [htn]
    simp [hz, List.take_length]

/-- C1 (counterexample). The frame for payload `[7]` (length `L = 1`) is
`[1, 0, 7]`; truncating it to its 2-byte length field — i.e. before its
one payload byte — makes `DecodeFrame` return `io.EOF`, the very same
error value that a clean end-of-stream (the empty input) produces, not a
short-read error distinguishable from it. -/
theorem C1_counterexample :
    DecodeFrame ((encodeFrame [7]).take 2) = .error .eof ∧
    DecodeFrame [] = .error .eof := by decide

/-- C1 (amended). For every payload of length `L ≤ 32767`, encoding with
`writeOpusFrame`'s layout and decoding with `DecodeFrame` round-trips the
payload unchanged; and decoding the frame truncated to any `k < 2 + L`
bytes always yields an error — never a silent empty or partial frame —
namely `io.ErrUnexpectedEOF` (a genuine short read) except when the
truncation leaves nothing at all or exactly the 2-byte length field, in
which case the error is `io.EOF`, the same value as a clean
end-of-stream. -/
theorem C1_roundtrip_truncation (payload : List Nat) (k : Nat)
    (hlen : payload.length ≤ 32767) (hk : k < 2 + payload.length) :
    DecodeFrame (encodeFrame payload) = .ok payload ∧
    DecodeFrame ((encodeFrame payload).take k) =
      (if k = 0 ∨ (k = 2 ∧ 0 < payload.length) then DecodeResult.error .eof
       else DecodeResult.error .unexpectedEOF) := by
  refine ⟨encodeFrame_decode payload hlen, ?_⟩
  match k with
  | 0 => simp [encodeFrame, DecodeFrame]
  | 1 => simp [encodeFrame, DecodeFrame]
  | (n + 2) =>
    have hnlt : n < payload.length := by omega
    have hpos : 0 < payload.length := by omega
    simp only [encodeFrame, List.take_succ_cons]
    simp only [DecodeFrame]
    rw [encodeFrame_header_size payload hlen]
    have h0 : ¬ ((payload.length : Int) < 0) := Int.not_lt.mpr (Int.natCast_nonneg _)
    have h1 : ¬ ((payload.length : Int) = 0) := by
      simpa using Nat.pos_iff_ne_zero.mp hpos
    have hlen_take : (payload.take n).length = n :=
      List.length_take_of_le (Nat.le_of_lt hnlt)
    simp only [h0, if_false, h1, hlen_take]
    have htn : ((payload.length : Int)).toNat = payload.length := Int.toNat_natCast _
    rw [htn]
    match n with
    | 0 => simp [hpos]
    | (m + 1) =>
      have hne : ¬ (m + 1 = 0) := by omega
      have hlt : m + 1 < payload.length := hnlt
      simp [hne, hlt, Nat.pos_iff_ne_zero]

/-- C1 (witness). Instantiates the round-trip/truncation theorem at the
payload `[7, 8]` truncated to 3 bytes: the full frame decodes back to
`[7, 8]`, and the truncation (strictly inside the payload) yields the
short-read error. -/
theorem C1_witness :
    DecodeFrame (encodeFrame [7, 8]) = .ok [7, 8] ∧
    DecodeFrame ((encodeFrame [7, 8]).take 3) = .error .unexpectedEOF := by
  have h := C1_roundtrip_truncation [7, 8] 3 (by decide) (by decide)
  refine ⟨h.1, ?_⟩
  have h2 := h.2
  norm_num at h2
  exact h2

/-! ## C10: totality of DecodeFrame -/

/-- C10 (counterexample). On the input `[0x00, 0x80]` the 2-byte
little-endian signed length field decodes to `-32768`, and
`make([]byte, size)` with a negative length is a Go runtime panic:
`DecodeFrame` crashes rather than returning a frame or an error. -/
theorem C10_counterexample : DecodeFrame [0, 128] = .crashed := by decide

/-- C10 (amended). `DecodeFrame` panics exactly on the inputs that carry
at least two bytes whose little-endian signed 16-bit length field is
negative; on every other input — in particular whenever the length field
is non-negative or the stream is shorter than the field itself — it
returns a frame or an error. -/
theorem C10_crash_characterisation (input : List Nat) :
    DecodeFrame input = .crashed ↔
      ∃ b0 b1 rest, input = b0 :: b1 :: rest ∧ toInt16LE b0 b1 < 0 := by
  match input with
  | [] => simp [DecodeFrame]
  | [x] => simp [DecodeFrame]
  | b0 :: b1 :: rest =>
    unfold DecodeFrame
    constructor
    · intro h
      refine ⟨b0, b1, rest, rfl, ?_⟩
      by_contra hneg
      simp only [hneg, if_false] at h
      split_ifs at h
    · rintro ⟨c0, c1, r, heq, hneg⟩
      simp only [List.cons.injEq] at heq
      obtain ⟨rfl, rfl, rfl⟩ := heq
      simp [hneg]

/-! ## C5: Validate -/

/-- C5. `Validate` returns `nil` exactly when the volume lies in 0..512,
the frame duration is one of 20/40/60 and the packet loss lies in
0..100; a volume out of range is reported as the volume-bounds error, an
invalid frame duration (with the volume in range) as the frame-duration
error, and an out-of-range packet loss (with the other two fields valid)
as the packet-loss error — each error naming that field's constraint. -/
theorem C5_validate_fields (opts : EncodeOptions) :
    (Validate opts = none ↔
      ((0 ≤ opts.Volume ∧ opts.Volume ≤ 512) ∧
       (opts.FrameDuration = 20 ∨ opts.FrameDuration = 40 ∨ opts.FrameDuration = 60) ∧
       (0 ≤ opts.PacketLoss ∧ opts.PacketLoss ≤ 100))) ∧
    ((opts.Volume < 0 ∨ 512 < opts.Volume) →
      Validate opts = some .volumeOutOfBounds) ∧
    ((0 ≤ opts.Volume ∧ opts.Volume ≤ 512) →
      ¬(opts.FrameDuration = 20 ∨ opts.FrameDuration = 40 ∨ opts.FrameDuration = 60) →
      Validate opts = some .invalidFrameDuration) ∧
    ((0 ≤ opts.Volume ∧ opts.Volume ≤ 512) →
      (opts.FrameDuration = 20 ∨ opts.FrameDuration = 40 ∨ opts.FrameDuration = 60) →
      (opts.PacketLoss < 0 ∨ 100 < opts.PacketLoss) →
      Validate opts = some .invalidPacketLoss) := by
  unfold Validate
  refine ⟨?_, ?_, ?_, ?_⟩
  · split_ifs with h1 h2 h3 <;>
      simp_all <;> omega
  · intro h
    have : opts.Volume < 0 ∨ opts.Volume > 512 := h
    simp [this]
  · intro hv hd
    have h1 : ¬(opts.Volume < 0 ∨ opts.Volume > 512) := by omega
    have h2 : opts.FrameDuration ≠ 20 ∧ opts.FrameDuration ≠ 40 ∧ opts.FrameDuration ≠ 60 := by
      tauto
    simp [h1, h2]
  · intro hv hd hp
    have h1 : ¬(opts.Volume < 0 ∨ opts.Volume > 512) := by omega
    have h2 : ¬(opts.FrameDuration ≠ 20 ∧ opts.FrameDuration ≠ 40 ∧ opts.FrameDuration ≠ 60) := by
      tauto
    have h3 : opts.PacketLoss < 0 ∨ opts.PacketLoss > 100 := hp
    simp [h1, h2, h3]

/-- C5 (witness). The default options validate cleanly, and pushing each
of the three checked fields out of range individually yields that
field's error. -/
theorem C5_witness :
    Validate StdEncodeOptions = none ∧
    Validate { StdEncodeOptions with Volume := 600 } = some .volumeOutOfBounds ∧
    Validate { StdEncodeOptions with FrameDuration := 30 } = some .invalidFrameDuration ∧
    Validate { StdEncodeOptions with PacketLoss := 101 } = some .invalidPacketLoss := by
  refine ⟨?_, ?_, ?_, ?_⟩
  · exact (C5_validate_fields StdEncodeOptions).1.mpr (by decide)
  · exact (C5_validate_fields _).2.1 (by decide)
  · exact (C5_validate_fields _).2.2.1 (by decide) (by decide)
  · exact (C5_validate_fields _).2.2.2 (by decide) (by decide) (by decide)

/-! ## C9: ReadMetadata error taxonomy -/

/-- C9. Any input of at least three bytes whose first three bytes are
not the ASCII characters `"DCA"` makes `ReadMetadata` return the
not-this-format error `ErrNotDCA`, regardless of every later byte and of
the JSON codec; when the magic matches but the version byte is not a
valid base-10 integer, the result is the version-parse error; when magic
and version are good but the JSON body (read in full) fails to parse,
the result is the JSON-parse error; and the three errors are pairwise
distinct. -/
theorem C9_read_metadata (jsonOk : List Nat → Bool) (input : List Nat) :
    (3 ≤ input.length → input.take 3 ≠ [68, 67, 65] →
      ReadMetadata jsonOk input = .errNotDCA) ∧
    (∀ d tail, input = 68 :: 67 :: 65 :: d :: tail →
      ¬(48 ≤ d ∧ d ≤ 57) →
      ReadMetadata jsonOk input = .badVersionDigit) ∧
    (∀ d c0 c1 c2 c3 body,
      input = 68 :: 67 :: 65 :: d :: c0 :: c1 :: c2 :: c3 :: body →
      (48 ≤ d ∧ d ≤ 57) →
      0 ≤ toInt32LE c0 c1 c2 c3 →
      body.length = (toInt32LE c0 c1 c2 c3).toNat →
      jsonOk body = false →
      ReadMetadata jsonOk input = .badJSON) ∧
    (MetaResult.errNotDCA ≠ .badVersionDigit ∧ MetaResult.errNotDCA ≠ .badJSON ∧
      MetaResult.badVersionDigit ≠ .badJSON) := by
  refine ⟨?_, ?_, ?_, by decide⟩
  · intro hlen hmagic
    match input with
    | a :: b :: c :: t =>
      have hne : ¬(a = 68 ∧ b = 67 ∧ c = 65) := by
        intro ⟨ha, hb, hc⟩
        exact hmagic (by simp [ha, hb, hc])
      simp [ReadMetadata, hne]
  · rintro d tail rfl hd
    simp [ReadMetadata, hd]
  · rintro d c0 c1 c2 c3 body rfl hd hnn hblen hjson
    unfold ReadMetadata
    simp only [List.getD_cons_zero, List.getD_cons_succ, List.drop_succ_cons,
      List.drop_zero]
    have hmagic : ¬¬((68 : Nat) = 68 ∧ (67 : Nat) = 67 ∧ (65 : Nat) = 65) := by simp
    rw [if_neg (by simp), if_neg (by simpa using hd)]
    have hrl : (c0 :: c1 :: c2 :: c3 :: body).length = 4 + body.length := by
      simp; omega
    rw [if_neg (by simp), if_neg (by simp [hrl])]
    rw [if_neg (by omega)]
    by_cases hz : toInt32LE c0 c1 c2 c3 = 0
    · rw [if_pos hz]
      have : body = [] := by
        apply List.eq_nil_of_length_eq_zero
        rw [hblen, hz]
        rfl
      rw [this] at hjson
      simp [hjson]
    · rw [if_neg hz]
      have hpos : 0 < (toInt32LE c0 c1 c2 c3).toNat := by
        rcases lt_or_eq_of_le hnn with h | h
        · omega
        · exact absurd h.symm hz
      rw [if_neg (by omega), if_neg (by omega)]
      have htake : body.take (toInt32LE c0 c1 c2 c3).toNat = body := by
        rw [← hblen]
        exact List.take_length body
      rw [htake, hjson]
      simp

/-- C9 (witness). Concrete 4-byte inputs: `"XXX1"` is rejected as
not-DCA; `"DCAX"` fails version parsing; `"DCA1"` followed by a 1-byte
body that the JSON codec rejects fails JSON parsing. -/
theorem C9_witness :
    ReadMetadata (fun _ => false) [88, 88, 88, 49] = .errNotDCA ∧
    ReadMetadata (fun _ => false) [68, 67, 65, 88] = .badVersionDigit ∧
    ReadMetadata (fun _ => false) [68, 67, 65, 49, 1, 0, 0, 0, 123] = .badJSON := by
  refine ⟨?_, ?_, ?_⟩
  · exact (C9_read_metadata _ _).1 (by decide) (by decide)
  · exact (C9_read_metadata _ _).2.1 88 [] rfl (by decide)
  · exact (C9_read_metadata _ _).2.2.1 49 1 0 0 0 [123] rfl (by decide) (by decide)
      (by decide) rfl

/-! ## C2: ReadFrame exhaustion on the closed queue -/

theorem chanAfter_closed (frames : List (List Nat)) (k : Nat) :
    chanAfter ⟨frames, true⟩ k = ⟨frames.drop k, true⟩ := by
  induction k with
  | zero => simp [chanAfter]
  | succ n ih =>
    rw [chanAfter, ih]
    have htail : (frames.drop n).tail = frames.drop (n + 1) := List.tail_drop frames n
    match hdrop : frames.drop n with
    | [] =>
      have : frames.drop (n + 1) = [] := by rw [← htail, hdrop]; rfl
      simp [stepRead, this]
    | f :: rest =>
      have : frames.drop (n + 1) = rest := by rw [← htail, hdrop]; rfl
      simp [stepRead, this]

/-- C2. Once the producer has emitted exactly the frames `frames` and
closed the queue, the `k`-th `ReadFrame` call (0-indexed) returns frame
`k` for every `k < N` and the `io.EOF` end-of-stream signal for every
`k ≥ N` — so `ReadFrame` succeeds exactly `N` times, fails on call
`N+1`, and keeps failing identically on every later call; and on ANY
channel state whatsoever, a `ReadFrame` call can observe the
end-of-stream signal only if the channel is closed — closing the queue
is the sole end-of-stream signal. -/
theorem C2_read_frame_exhaustion (frames : List (List Nat)) (k : Nat) :
    (∀ h : k < frames.length, nthRead ⟨frames, true⟩ k = .frame (frames.get ⟨k, h⟩)) ∧
    (frames.length ≤ k → nthRead ⟨frames, true⟩ k = .eofErr) ∧
    (∀ c : FrameChan, (stepRead c).1 = .eofErr → c.closed = true) := by
  refine ⟨?_, ?_, ?_⟩
  · intro h
    unfold nthRead
    rw [chanAfter_closed]
    rw [List.drop_eq_getElem_cons h]
    simp [stepRead]
  · intro h
    unfold nthRead
    rw [chanAfter_closed]
    have : frames.drop k = [] := List.drop_eq_nil_of_le h
    simp [stepRead, this]
  · intro c h
    unfold stepRead at h
    match hb : c.buffered with
    | [] =>
      rw [hb] at h
      by_cases hc : c.closed = true
      · exact hc
      · simp [hc] at h
    | f :: rest => simp [hb] at h

/-- C2 (witness). A producer that emitted exactly two frames and closed
the queue: calls 0 and 1 succeed with the frames in order, and calls 2
and 3 both return the end-of-stream signal. -/
theorem C2_witness :
    nthRead ⟨[[1], [2]], true⟩ 0 = .frame [1] ∧
    nthRead ⟨[[1], [2]], true⟩ 1 = .frame [2] ∧
    nthRead ⟨[[1], [2]], true⟩ 2 = .eofErr ∧
    nthRead ⟨[[1], [2]], true⟩ 3 = .eofErr := by
  refine ⟨?_, ?_, ?_, ?_⟩
  · simpa using (C2_read_frame_exhaustion [[1], [2]] 0).1 (by decide)
  · simpa using (C2_read_frame_exhaustion [[1], [2]] 1).1 (by decide)
  · exact (C2_read_frame_exhaustion [[1], [2]] 2).2.1 (by decide)
  · exact (C2_read_frame_exhaustion [[1], [2]] 3).2.1 (by decide)

/-! ## C3: the packet-boundary walk of readStdout -/

/-- C3 (counterexample). A page whose segment table is the single entry
0 (one zero-length segment, legal in ogg): the source flushes nothing —
its flush requires a non-empty accumulated buffer — while the claim's
literal walk ("flush whenever a segment shorter than 255 is
encountered") flushes an empty packet, producing the wire frame
`[0, 0]`. The claimed equality fails on this input. -/
theorem C3_counterexample :
    readStdoutFrames [⟨[0], []⟩] = [] ∧
    (specPackets (([⟨[0], []⟩] : List OggPage).map
        (fun p => splitSegs p.packet p.segTbl))).map encodeFrame = [[0, 0]] ∧
    readStdoutFrames [⟨[0], []⟩] ≠
      (specPackets (([⟨[0], []⟩] : List OggPage).map
        (fun p => splitSegs p.packet p.segTbl))).map encodeFrame := by
  decide

theorem segLoop_walk (segTbl : List Nat) :
    ∀ (packet : List Nat) (curPos : Nat) (acc : List Nat),
    curPos + segTbl.sum ≤ packet.length →
    (segLoop packet segTbl curPos acc).1 =
      (specSegWalkNE (splitSegs (packet.drop curPos) segTbl) acc).1 ∧
    (segLoop packet segTbl curPos acc).2.2 =
      (specSegWalkNE (splitSegs (packet.drop curPos) segTbl) acc).2 := by
  induction segTbl with
  | nil =>
    intro packet curPos acc _
    simp [segLoop, splitSegs, specSegWalkNE]
  | cons seg rest ih =>
    intro packet curPos acc h
    have hsum : seg + rest.sum = (List.cons seg rest).sum := by simp
    have hseg : curPos + seg ≤ packet.length := by
      rw [← hsum] at h; omega
    have hnext : (curPos + seg) + rest.sum ≤ packet.length := by
      rw [← hsum] at h; omega
    have hlen : ((packet.drop curPos).take seg).length = seg := by
      rw [List.length_take, List.length_drop]
      omega
    have hdd : (packet.drop curPos).drop seg = packet.drop (curPos + seg) := by
      rw [List.drop_drop]
    simp only [segLoop, splitSegs, specSegWalkNE, hdd, hlen]
    by_cases hflush : seg < 255 ∧ acc ++ (packet.drop curPos).take seg ≠ []
    · have hcode : seg < 255 ∧ 0 < (acc ++ (packet.drop curPos).take seg).length :=
        ⟨hflush.1, List.length_pos.mpr hflush.2⟩
      rw [if_pos hcode, if_pos hflush]
      have hrec := ih packet (curPos + seg) [] hnext
      exact ⟨by simp [hrec.1], by simp [hrec.2]⟩
    · have hcode : ¬(seg < 255 ∧ 0 < (acc ++ (packet.drop curPos).take seg).length) := by
        intro hc
        exact hflush ⟨hc.1, List.length_pos.mp hc.2⟩
      rw [if_neg hcode, if_neg hflush]
      exact ih packet (curPos + seg) (acc ++ (packet.drop curPos).take seg) hnext

theorem readStdout_fold_walk (pages : List OggPage) :
    ∀ (out : List (List Nat)) (acc : List Nat),
    (∀ p ∈ pages, p.packet.length = p.segTbl.sum) →
    pages.foldl
      (fun st page =>
        let r := segLoop page.packet page.segTbl 0 st.2
        (st.1 ++ r.1, r.2.2)) (out, acc) =
    (pages.map (fun p => splitSegs p.packet p.segTbl)).foldl
      (fun st page =>
        let w := specSegWalkNE page st.2
        (st.1 ++ w.1, w.2)) (out, acc) := by
  induction pages with
  | nil => intro out acc _; rfl
  | cons p ps ih =>
    intro out acc hwf
    have hp : p.packet.length = p.segTbl.sum := hwf p (List.mem_cons_self p ps)
    have hball : ∀ q ∈ ps, q.packet.length = q.segTbl.sum :=
      fun q hq => hwf q (List.mem_cons_of_mem p hq)
    have hw := segLoop_walk p.segTbl p.packet 0 acc (by omega)
    simp only [List.drop_zero] at hw
    simp only [List.foldl_cons, List.map_cons]
    rw [hw.1, hw.2]
    exact ih (out ++ (specSegWalkNE (splitSegs p.packet p.segTbl) acc).1)
      (specSegWalkNE (splitSegs p.packet p.segTbl) acc).2 hball

/-- C3 (amended). Under the ogg decoder's guarantee that each page's
data length equals the sum of its segment table, `readStdout` emits
exactly the wire frames of the packets obtained by walking each page's
segments in order, concatenating consecutive segments into one packet
buffer, and flushing the accumulated packet whenever a segment shorter
than 255 is encountered AND the accumulated packet is non-empty (a
zero-length segment on an empty buffer emits nothing); any non-empty
partial packet remaining after the page stream ends is flushed exactly
once as a final frame. -/
theorem C3_packet_walk (pages : List OggPage)
    (hwf : ∀ p ∈ pages, p.packet.length = p.segTbl.sum) :
    readStdoutFrames pages =
      (specPacketsNE (pages.map (fun p => splitSegs p.packet p.segTbl))).map encodeFrame := by
  unfold readStdoutFrames readStdoutPackets specPacketsNE
  rw [readStdout_fold_walk pages [] [] hwf]

/-- C3 (witness). One page with segment table `[2, 1]` over the data
`[9, 8, 7]`: both the source loop and the amended walk emit the two wire
frames `[2, 0, 9, 8]` and `[1, 0, 7]`. -/
theorem C3_witness :
    readStdoutFrames [⟨[2, 1], [9, 8, 7]⟩] =
      (specPacketsNE (([⟨[2, 1], [9, 8, 7]⟩] : List OggPage).map
        (fun p => splitSegs p.packet p.segTbl))).map encodeFrame ∧
    readStdoutFrames [⟨[2, 1], [9, 8, 7]⟩] = [[2, 0, 9, 8], [1, 0, 7]] := by
  refine ⟨C3_packet_walk [⟨[2, 1], [9, 8, 7]⟩] (by decide), by decide⟩

/-! ## C4: the metadata prologue as queue item zero -/

/-- C4 (counterexample). A file-source session with `RawOutput` false
whose ffprobe/parse chain fails: `writeMetadataFrame` returns early
without enqueueing anything, so no prologue is ever placed in the queue
and the first queue item is an audio frame — the prologue is not frame
zero. -/
theorem C4_counterexample :
    runEvents (some StdEncodeOptions)
        ⟨"song.mp3", false, true, true, false, true, [[1, 0, 9]]⟩ =
      [.startProc ("ffmpeg" :: ffmpegArgs StdEncodeOptions "song.mp3"),
       .enqueueAudio [1, 0, 9], .closeQueue] ∧
    RunEvent.enqueueMeta ∉
      runEvents (some StdEncodeOptions)
        ⟨"song.mp3", false, true, true, false, true, [[1, 0, 9]]⟩ := by
  constructor
  · simp [runEvents, writeMetadataFrameEvents, StdEncodeOptions]
  · intro hmem
    simp [runEvents, writeMetadataFrameEvents, StdEncodeOptions] at hmem

/-- C4 (amended). For every session with `RawOutput` false whose pipe
setup succeeds and which is either a pipe source or a file source whose
probe chain succeeds, the metadata prologue is the very first item of
the producer's event trace — before `ffmpeg.Start()` and before every
audio frame, so `ReadFrame` always delivers it as frame zero; when a
file source's probe chain fails, the prologue is silently skipped. -/
theorem C4_prologue_first (options : EncodeOptions) (env : RunEnv)
    (hraw : options.RawOutput = false)
    (hso : env.stdoutPipeOk = true) (hse : env.stderrPipeOk = true)
    (hmeta : env.pipeSource = true ∨ env.probeOk = true) :
    ∃ rest, runEvents (some options) env = RunEvent.enqueueMeta :: rest := by
  unfold runEvents writeMetadataFrameEvents
  rw [if_neg (by simp [hso]), if_neg (by simp [hse])]
  rw [if_pos (by simp [hraw])]
  rw [if_neg (by
    intro hc
    rcases hmeta with hm | hm
    · rw [hm] at hc; simpa using hc.1
    · rw [hm] at hc; simpa using hc.2)]
  exact ⟨_, rfl⟩

/-- C4 (witness). A pipe-source session (`EncodeMem`) with the default
options (whose `RawOutput` is false): its trace starts with the
prologue enqueue. -/
theorem C4_witness :
    ∃ rest,
      runEvents (some StdEncodeOptions) ⟨"", true, true, true, true, true, [[1, 0, 9]]⟩ =
        RunEvent.enqueueMeta :: rest := by
  exact C4_prologue_first StdEncodeOptions ⟨"", true, true, true, true, true, [[1, 0, 9]]⟩
    rfl rfl rfl (Or.inl rfl)

/-! ## C6: invalid options and the subprocess -/

/-- C6 (counterexample). The options with volume 600 fail `Validate`,
yet `EncodeFile` still attempts `ffmpeg.Start()` with the argument list
derived from exactly those options — invalid options do reach the
subprocess; nothing in session construction calls `Validate`. -/
theorem C6_counterexample :
    Validate { StdEncodeOptions with Volume := 600 } = some .volumeOutOfBounds ∧
    RunEvent.startProc
        ("ffmpeg" :: ffmpegArgs { StdEncodeOptions with Volume := 600 } "song.mp3") ∈
      EncodeFileEvents "song.mp3" (some { StdEncodeOptions with Volume := 600 })
        true true true true [] := by
  constructor
  · decide
  · simp [EncodeFileEvents, runEvents, writeMetadataFrameEvents, StdEncodeOptions]

/-- C6 (amended). Session construction never consults `Validate`: for
EVERY options value, valid or invalid, once pipe setup succeeds `run`
attempts `ffmpeg.Start()` with the argument list derived from exactly
those options — the launch is independent of `Validate`'s verdict, and
validation is purely advisory for callers. -/
theorem C6_launch_ignores_validate (options : EncodeOptions) (env : RunEnv)
    (hso : env.stdoutPipeOk = true) (hse : env.stderrPipeOk = true) :
    RunEvent.startProc ("ffmpeg" :: ffmpegArgs options
        (if env.filePath ≠ "" then env.filePath else "pipe:0")) ∈
      runEvents (some options) env := by
  unfold runEvents
  rw [if_neg (by simp [hso]), if_neg (by simp [hse])]
  apply List.mem_append_right
  exact List.mem_cons_self _ _

/-- C6 (witness). The launch theorem applied to the invalid options with
volume 600 on a file source. -/
theorem C6_witness :
    RunEvent.startProc
        ("ffmpeg" :: ffmpegArgs { StdEncodeOptions with Volume := 600 } "a.ogg") ∈
      runEvents (some { StdEncodeOptions with Volume := 600 })
        ⟨"a.ogg", false, true, true, true, true, []⟩ := by
  have h := C6_launch_ignores_validate { StdEncodeOptions with Volume := 600 }
    ⟨"a.ogg", false, true, true, true, true, []⟩ rfl rfl
  have hif : (if ("a.ogg" : String) ≠ "" then ("a.ogg" : String) else "pipe:0") = "a.ogg" := by
    decide
  rw [hif] at h
  exact h

/-! ## C7: the sink hand-off timeout -/

/-- C7. In a running, unpaused session whose source yields a frame but
whose sink never accepts the hand-off, the forwarding loop loses the
race against the `time.After(time.Second)` timer (the timeout constant
is one second = 10^9 ns) and aborts immediately with
`ErrVoiceConnClosed` instead of looping further: the frames-forwarded
counter is NOT incremented for the failed hand-off, the session becomes
finished with that error — so `Finished` returns `(true,
ErrVoiceConnClosed)` — and it stays so: `SetPaused` leaves a finished
session untouched. -/
theorem C7_sink_timeout (st : StreamState) (f : List Nat)
    (rest : List (SourceResult × Bool)) (hp : st.paused = false) :
    streamLoop st ((SourceResult.frame f, false) :: rest) =
      { st with running := false, finished := true, err := some voiceConnClosedCode } ∧
    (streamLoop st ((SourceResult.frame f, false) :: rest)).framesSent = st.framesSent ∧
    Finished (streamLoop st ((SourceResult.frame f, false) :: rest)) =
      (true, some voiceConnClosedCode) ∧
    (∀ b, SetPaused (streamLoop st ((SourceResult.frame f, false) :: rest)) b =
      streamLoop st ((SourceResult.frame f, false) :: rest)) ∧
    sinkTimeoutNanos = 1000000000 := by
  have h1 : streamLoop st ((SourceResult.frame f, false) :: rest) =
      { st with running := false, finished := true, err := some voiceConnClosedCode } := by
    simp [streamLoop, readNext, streamHandleErr, hp, voiceConnClosedCode, ioEOFCode]
  refine ⟨h1, ?_, ?_, ?_, rfl⟩
  · rw [h1]
  · rw [h1]
    rfl
  · intro b
    rw [h1]
    simp [SetPaused]

/-- C7 (witness). A fresh session whose first hand-off times out:
`Finished` becomes `(true, ErrVoiceConnClosed)` with zero frames
forwarded. -/
theorem C7_witness :
    Finished (streamLoop newStreamState [(SourceResult.frame [1], false)]) =
      (true, some voiceConnClosedCode) ∧
    (streamLoop newStreamState [(SourceResult.frame [1], false)]).framesSent = 0 := by
  have h := C7_sink_timeout newStreamState [1] [] rfl
  exact ⟨h.2.2.1, h.2.1⟩

/-! ## C8: playback position is monotone across pause/resume -/

theorem setPaused_framesSent (st : StreamState) (b : Bool) :
    (SetPaused st b).framesSent = st.framesSent := by
  unfold SetPaused
  split_ifs <;> rfl

theorem applyEvent_framesSent_le (st : StreamState) (e : StreamEvent) :
    st.framesSent ≤ (applyEvent st e).framesSent := by
  cases e with
  | next src snk =>
    by_cases hr : st.running
    · by_cases hpz : st.paused
      · simp [applyEvent, hr, hpz]
      · cases src with
        | frame f =>
          by_cases hs : snk
          · simp [applyEvent, hr, hpz, readNext, hs]
          · simp [applyEvent, hr, hpz, readNext, hs, streamHandleErr]
        | eofEnd => simp [applyEvent, hr, hpz, readNext, streamHandleErr]
        | srcFault => simp [applyEvent, hr, hpz, readNext, streamHandleErr]
    · simp [applyEvent, hr]
  | setPausedCall b =>
    simp [applyEvent, setPaused_framesSent]

theorem applyEvents_framesSent_le (st : StreamState) (events : List StreamEvent) :
    st.framesSent ≤ (applyEvents st events).framesSent := by
  induction events generalizing st with
  | nil => exact Nat.le_refl _
  | cons e es ih =>
    calc st.framesSent ≤ (applyEvent st e).framesSent := applyEvent_framesSent_le st e
    _ ≤ (applyEvents (applyEvent st e) es).framesSent := ih (applyEvent st e)

/-- C8. In every state, `PlaybackPosition` is the frames-forwarded
counter times the source frame duration; a `SetPaused` call — pause or
resume, in every branch — leaves the counter exactly unchanged; across
ANY sequence of loop iterations and pause/resume calls the counter
never decreases; hence `PlaybackPosition` is monotonically
non-decreasing over the whole pause/resume lifecycle and resumed
playback continues from the same counter value. -/
theorem C8_position_monotone (st : StreamState) (events : List StreamEvent) (dur : Nat) :
    PlaybackPosition st dur = st.framesSent * dur ∧
    (∀ b, (SetPaused st b).framesSent = st.framesSent) ∧
    st.framesSent ≤ (applyEvents st events).framesSent ∧
    PlaybackPosition st dur ≤ PlaybackPosition (applyEvents st events) dur := by
  refine ⟨rfl, fun b => setPaused_framesSent st b, applyEvents_framesSent_le st events, ?_⟩
  unfold PlaybackPosition
  exact Nat.mul_le_mul_right dur (applyEvents_framesSent_le st events)

end DCA
